import Mathlib

/-!
Verification of the normalization-and-load ETL pipeline in
`src/noteebook/tallerETL/etl_consumer_complaints.py` against its
natural-language specification.

Shallow embedding conventions:
* a pandas cell read with `dtype=str` is `Option String` (`none` models NaN,
  the missing/empty CSV field);
* a DataFrame is a list of named columns (pandas keeps duplicate labels
  after `rename`, so a list of pairs, not a finite map); `DF.wf` states the
  well-formedness a DataFrame read from a CSV has: unique column labels and
  equal column lengths;
* the Unicode-aware Python `str.isalnum` and `str.lower` are modelled by the
  ASCII `Char.isAlphanum` and `Char.toLower`;
* `normalize_and_load` is modelled as a pure function returning the trace of
  table writes it issues plus an `Except` result (the code raises
  `ValueError` when a required categorical column is missing after the
  staging write); the relational sink is an association list of named tables
  with replace-on-write semantics, matching `if_exists="replace"` and the
  `DROP TABLE` + `CREATE TABLE AS` of the aggregate step;
* the `GROUP BY` aggregate is modelled as a count per pair of dimension rows
  (surrogate keys are unique, so SQL groups and dimension-row pairs
  coincide); the `ORDER BY` output ordering and the index/constraint DDL are
  not modelled, as no claim depends on them.
-/

namespace ETL

/-- One character of `safe.replace("/", " ").replace("-", " ").replace(".", " ")`
in `make_safe_column_names` (lines 47-49). -/
def sepRepl (c : Char) : Char := if c = '/' ∨ c = '-' ∨ c = '.' then ' ' else c

/-- One character of the join `ch if ch.isalnum() else "_"` (line 50). -/
def toUnd (c : Char) : Char := if c.isAlphanum then c else '_'

/-- The underscore predicate of `strip("_")`. -/
def und (c : Char) : Bool := c = '_'

/-- The fixpoint of `while "__" in safe: safe = safe.replace("__", "_")`
(lines 51-52): every maximal run of underscores collapses to one. -/
def collapseU : List Char → List Char
  | [] => []
  | [c] => [c]
  | c :: d :: rest => if c = '_' ∧ d = '_' then collapseU (d :: rest) else c :: collapseU (d :: rest)

/-- Removal of the trailing run of characters satisfying `p` — the right
half of the Python `strip`. -/
def dropTrail (p : Char → Bool) : List Char → List Char
  | [] => []
  | c :: rest => match dropTrail p rest with
    | [] => if p c then [] else [c]
    | r => c :: r

/-- Python `strip`: drop the leading and the trailing run satisfying `p`. -/
def pyStrip (p : Char → Bool) (l : List Char) : List Char := dropTrail p (l.dropWhile p)

/-- Body of `make_safe_column_names` for one label (lines 44-56), on
character lists: `str(col).strip().lower()`, slash/dash/dot to a space,
non-alphanumerics to `_`, collapse `__`, strip `_`, fallback `"col"`. -/
def makeSafeList (l : List Char) : List Char :=
  let s0 := (pyStrip Char.isWhitespace l).map Char.toLower
  let s1 := s0.map sepRepl
  let s2 := s1.map toUnd
  let s3 := collapseU s2
  let s4 := pyStrip und s3
  if s4 = [] then ['c', 'o', 'l'] else s4

/-- The canonical name `make_safe_column_names` assigns to one label. -/
def makeSafe (col : String) : String := ⟨makeSafeList col.data⟩

/-- Modelled from the spec, for comparison with `makeSafeList`: the section
4.1 wording — lower-case; replace `/`, `-`, `.` with a separator; replace
every remaining non-alphanumeric character with the separator; collapse
repeated separators; strip leading/trailing separators; fall back when
empty. -/
def makeSafeSpecList (l : List Char) : List Char :=
  let s0 := l.map Char.toLower
  let s1 := s0.map (fun c => if c = '/' ∨ c = '-' ∨ c = '.' then '_' else c)
  let s2 := s1.map toUnd
  let s3 := collapseU s2
  let s4 := pyStrip und s3
  if s4 = [] then ['c', 'o', 'l'] else s4

/-- Modelled from the spec: canonical name per the section 4.1 wording. -/
def makeSafeSpec (col : String) : String := ⟨makeSafeSpecList col.data⟩

/-- Composite per-character action of the sanitizer on the stripped label. -/
def sanChar (c : Char) : Char := toUnd (sepRepl c.toLower)

/-- Final strip-and-fallback stage shared by code and spec pipelines. -/
def postStrip (l : List Char) : List Char :=
  let s4 := pyStrip und l
  if s4 = [] then ['c', 'o', 'l'] else s4

/-- `drop_duplicates()` on a single column: keep the first occurrence of
each value, in order of first appearance. -/
def dedupFirst {α : Type} [DecidableEq α] : List α → List α
  | [] => []
  | x :: xs => x :: dedupFirst (xs.filter (fun y => y ≠ x))
termination_by l => l.length
decreasing_by
  simp only [List.length_cons]
  exact Nat.lt_succ_of_le (List.length_filter_le _ _)

/-- `reset_index(drop=True)` plus `insert(0, "id", index + 1)`: pair each
row with surrogate keys counting up from `n`. -/
def withKeys {α : Type} (n : Nat) : List α → List (Nat × α)
  | [] => []
  | v :: vs => (n, v) :: withKeys (n + 1) vs

/-- The dimension builder, lines 126-133 and 135-142:
`df[[col]].dropna().drop_duplicates().reset_index(drop=True)` with
`id = index + 1`. -/
def buildDim (col : List (Option String)) : List (Nat × String) :=
  withKeys 1 (dedupFirst (col.filterMap id))

/-- A pandas DataFrame of textual cells: named columns in order. Duplicate
names may occur (e.g. after a colliding rename), as in pandas. -/
structure DF where
  cols : List (String × List (Option String))
deriving DecidableEq, Repr

def DF.colNames (df : DF) : List String := df.cols.map Prod.fst

def DF.nrows (df : DF) : Nat :=
  match df.cols with
  | [] => 0
  | c :: _ => c.2.length

def DF.getCol (df : DF) (name : String) : List (Option String) :=
  match df.cols.find? (fun c => c.1 == name) with
  | some c => c.2
  | none => []

def DF.wf (df : DF) : Prop :=
  df.colNames.Nodup ∧ ∀ c ∈ df.cols, c.2.length = df.nrows

/-- Lines 109-113: first candidate of `["product", "product_name"]` present
in the columns. -/
def pickProductCol (df : DF) : Option String :=
  ["product", "product_name"].find? (fun c => decide (c ∈ df.colNames))

/-- Line 114: the channel column is exactly `submitted_via` when present. -/
def pickChannelCol (df : DF) : Option String :=
  if "submitted_via" ∈ df.colNames then some "submitted_via" else none

/-- `dict(zip(products["name"], products["id"]))` (lines 155-156). -/
def dimToMap (dim : List (Nat × String)) : List (String × Nat) :=
  dim.map (fun p => (p.2, p.1))

/-- `Series.map(dict)` on one cell (lines 166-167): NaN stays missing and a
value absent from the dict becomes missing. -/
def cellMap (m : List (String × Nat)) (cell : Option String) : Option Nat :=
  cell.bind (fun v => m.lookup v)

/-- One row of `fact_complaint` (lines 158-170). -/
structure FactRow where
  complaint_id : String
  product_id : Option Nat
  channel_id : Option Nat
  date_received : Option String
deriving DecidableEq, Repr

/-- `astype(str)` on one cell: pandas renders NaN as the string `nan`. -/
def pyStrFromCell : Option String → String
  | some s => s
  | none => "nan"

/-- Lines 159-163: reuse `complaint_id` as text, else generate `1..n`. -/
def complaintIds (df : DF) : List String :=
  if "complaint_id" ∈ df.colNames then (df.getCol "complaint_id").map pyStrFromCell
  else (List.range df.nrows).map (fun i => toString (i + 1))

/-- Lines 169-170: pass `date_received` through when present. The model
keeps the field with all-missing values when the column is absent. -/
def dateCol (df : DF) : List (Option String) :=
  if "date_received" ∈ df.colNames then df.getCol "date_received"
  else List.replicate df.nrows none

/-- Assembly of the fact DataFrame from its aligned columns. -/
def zipFact : List String → List (Option Nat) → List (Option Nat) → List (Option String) →
    List FactRow
  | a :: as, b :: bs, c :: cs, d :: ds => ⟨a, b, c, d⟩ :: zipFact as bs cs ds
  | _, _, _, _ => []

/-- One row of `agg_complaints_by_product_channel` (lines 185-195). -/
structure AggRow where
  product_id : Nat
  product : String
  channel_id : Nat
  channel : String
  complaints_count : Nat
deriving DecidableEq, Repr

/-- The join condition of the aggregate query for one fact row. -/
def matchesPair (pr : (Nat × String) × (Nat × String)) (r : FactRow) : Bool :=
  decide (r.product_id = some pr.1.1 ∧ r.channel_id = some pr.2.1)

/-- The aggregate row of one dimension pair: its joined fact-row count, or
nothing when the pair never occurs (inner-join grouping keeps only occurring
combinations). -/
def aggEntry (fact : List FactRow) (pr : (Nat × String) × (Nat × String)) : Option AggRow :=
  let k := fact.countP (matchesPair pr)
  if k = 0 then none else some ⟨pr.1.1, pr.1.2, pr.2.1, pr.2.2, k⟩

/-- The `GROUP BY` aggregate (lines 182-198): since surrogate keys are
unique per dimension, SQL groups correspond to dimension-row pairs. -/
def buildAgg (dimP dimC : List (Nat × String)) (fact : List FactRow) : List AggRow :=
  (dimP.product dimC).filterMap (aggEntry fact)

/-- The `ValueError` of lines 116-124 (`MissingRequiredColumn` in the
specification), carrying the missing axis names. -/
inductive ETLError where
  | missingRequiredColumn (missing : List String)
deriving DecidableEq, Repr

/-- Table writes issued to the sink, in program order. -/
inductive WriteOp where
  | stagingW
  | dimProductW
  | dimChannelW
  | factW
  | aggW
deriving DecidableEq, Repr

/-- Everything `normalize_and_load` derives from the source. -/
structure POut where
  productCol : String
  channelCol : String
  dimProduct : List (Nat × String)
  dimChannel : List (Nat × String)
  fact : List FactRow
  agg : List AggRow
deriving DecidableEq, Repr

/-- The successful path of `normalize_and_load` (lines 126-198) once the
axis columns are found. -/
def runETL (df : DF) (pcol ccol : String) : POut :=
  let dimP := buildDim (df.getCol pcol)
  let dimC := buildDim (df.getCol ccol)
  let pMap := dimToMap dimP
  let cMap := dimToMap dimC
  let fact := zipFact (complaintIds df)
    ((df.getCol pcol).map (cellMap pMap))
    ((df.getCol ccol).map (cellMap cMap))
    (dateCol df)
  ⟨pcol, ccol, dimP, dimC, fact, buildAgg dimP dimC fact⟩

/-- `normalize_and_load` (lines 85-200): stage the full source, find the
axis columns, fail when one is missing, else build dimensions, facts and the
aggregate; the first component is the trace of sink writes issued. -/
def normalizeAndLoad (df : DF) : List WriteOp × Except ETLError POut :=
  match pickProductCol df, pickChannelCol df with
  | some pcol, some ccol =>
    ([.stagingW, .dimProductW, .dimChannelW, .factW, .aggW],
     .ok (runETL df pcol ccol))
  | pc, cc =>
    ([.stagingW],
     .error (.missingRequiredColumn
       ((if pc = none then ["product/product_name"] else []) ++
        (if cc = none then ["submitted_via"] else []))))

/-- A fact row whose two foreign keys both resolved. -/
def bothSome (r : FactRow) : Bool :=
  r.product_id.isSome && r.channel_id.isSome

/-- `df.rename(columns=make_safe_column_names(df.columns))` in `load_csv`
(lines 66-67): pandas renames label-wise and keeps colliding columns as
duplicate labels. -/
def renameColumns (df : DF) : DF :=
  ⟨df.cols.map (fun c => (makeSafe c.1, c.2))⟩

/-- Modelled from the spec: §4.1 "a later column silently overwrites an
earlier one" — rename where a later colliding column replaces the earlier. -/
def renameOverwrite (df : DF) : DF :=
  ⟨df.cols.foldl (fun acc c =>
      let n := makeSafe c.1
      (acc.filter (fun p => p.1 ≠ n)) ++ [(n, c.2)]) []⟩

/-- The collision scenario of the specification, section 8: labels
`Product Name` and `product-name` sanitize to the same canonical name. -/
def dfCollide : DF :=
  ⟨[("Product Name", [some "a"]), ("product-name", [some "b"])]⟩

/-- A source with no categorical axis column at all. -/
def dfMissing : DF := ⟨[("foo", [some "x"])]⟩

inductive TableVal where
  | stgT (df : DF)
  | dimT (rows : List (Nat × String))
  | factT (rows : List FactRow)
  | aggT (rows : List AggRow)
deriving DecidableEq, Repr

/-- The relational sink: named tables. -/
def Store : Type := List (String × TableVal)

/-- `to_sql(..., if_exists="replace")` / `DROP TABLE` + `CREATE TABLE AS`:
the named table is fully replaced, other tables untouched. -/
def setTable (s : Store) (n : String) (v : TableVal) : Store :=
  (n, v) :: s.filter (fun p => p.1 ≠ n)

def getTable (s : Store) (n : String) : Option TableVal :=
  (s.find? (fun p => p.1 == n)).map Prod.snd

/-- One pipeline run against the sink: replaces the staging table, then (on
success) the two dimensions, the fact table and the aggregate. -/
def applyRun (df : DF) (s : Store) : Store :=
  match normalizeAndLoad df with
  | (_, .error _) => setTable s "stg_consumer_complaints" (.stgT df)
  | (_, .ok out) =>
    setTable (setTable (setTable (setTable (setTable s
      "stg_consumer_complaints" (.stgT df))
      "dim_product" (.dimT out.dimProduct))
      "dim_channel" (.dimT out.dimChannel))
      "fact_complaint" (.factT out.fact))
      "agg_complaints_by_product_channel" (.aggT out.agg)
/-- Scenario source from the specification, section 8: three records over
the product and channel axes. -/
def df3 : DF :=
  ⟨[("product", [some "Loan", some "Loan", some "Loan"]),
    ("submitted_via", [some "Web", some "Phone", some "Web"])]⟩

/-- Pipeline output on `df3`. -/
def out3 : POut := runETL df3 "product" "submitted_via"

/-- A source carrying both product candidate columns and the channel. -/
def dfBoth : DF :=
  ⟨[("product", [some "A"]), ("product_name", [some "B"]),
    ("submitted_via", [some "Web"])]⟩

lemma toUnd_sepRepl_eq_spec (c : Char) :
    toUnd (sepRepl c) = toUnd (if c = '/' ∨ c = '-' ∨ c = '.' then '_' else c) := by
  by_cases h : c = '/' ∨ c = '-' ∨ c = '.'
  · simp [sepRepl, toUnd, h]
  · simp [sepRepl, h]

lemma sanChar_of_whitespace {c : Char} (h : c.isWhitespace = true) : sanChar c = '_' := by
  simp only [Char.isWhitespace, Bool.or_eq_true, decide_eq_true_eq] at h
  rcases h with ((h | h) | h) | h <;> subst h <;> decide

lemma collapseU_ne_nil {l : List Char} (h : l ≠ []) : collapseU l ≠ [] := by
  induction l using collapseU.induct with
  | case1 => exact absurd rfl h
  | case2 c => simp [collapseU]
  | case3 c d rest hcd ih => simp only [collapseU, if_pos hcd]; exact ih (by simp)
  | case4 c d rest hcd ih => simp [collapseU, if_neg hcd]

lemma dropWhile_und_collapseU_cons (x : List Char) :
    List.dropWhile und (collapseU ('_' :: x)) = List.dropWhile und (collapseU x) := by
  cases x with
  | nil => decide
  | cons d t =>
    by_cases hd : d = '_'
    · subst hd
      simp [collapseU]
    · simp only [collapseU, hd, and_false, if_false, and_true]
      rw [List.dropWhile_cons]
      simp [und]

lemma postStrip_cons_und (x : List Char) :
    postStrip (collapseU ('_' :: x)) = postStrip (collapseU x) := by
  unfold postStrip pyStrip
  rw [dropWhile_und_collapseU_cons]

lemma dropTrail_snoc {p : Char → Bool} {a : Char} (ha : p a = true) (y : List Char) :
    dropTrail p (y ++ [a]) = dropTrail p y := by
  induction y with
  | nil => simp [dropTrail, ha]
  | cons c t ih => rw [List.cons_append, dropTrail, dropTrail, ih]

lemma getLast?_cons_of_ne_nil {c : Char} {r : List Char} (h : r ≠ []) :
    (c :: r).getLast? = r.getLast? := by
  cases r with
  | nil => exact absurd rfl h
  | cons b t => exact List.getLast?_cons_cons

lemma collapseU_snoc_und (x : List Char) :
    collapseU (x ++ ['_']) =
      if (collapseU x).getLast? = some '_' then collapseU x else collapseU x ++ ['_'] := by
  induction x using collapseU.induct with
  | case1 => simp [collapseU]
  | case2 c =>
    by_cases hc : c = '_'
    · subst hc; simp [collapseU]
    · simp [collapseU, hc]
  | case3 c d rest hcd ih =>
    obtain ⟨hc, hd⟩ := hcd
    subst hc; subst hd
    simpa [collapseU] using ih
  | case4 c d rest hcd ih =>
    have hne : collapseU (d :: rest) ≠ [] := collapseU_ne_nil (by simp)
    simp only [List.cons_append, collapseU, if_neg hcd, List.append_eq]
    simp only [List.cons_append] at ih
    rw [ih, getLast?_cons_of_ne_nil hne]
    by_cases hlast : (collapseU (d :: rest)).getLast? = some '_'
    · simp [hlast]
    · simp [hlast]

lemma postStrip_collapseU_snoc (x : List Char) :
    postStrip (collapseU (x ++ ['_'])) = postStrip (collapseU x) := by
  rw [collapseU_snoc_und]
  by_cases hlast : (collapseU x).getLast? = some '_'
  · simp [hlast]
  · rw [if_neg hlast]
    set y := collapseU x with hy
    show postStrip (y ++ ['_']) = postStrip y
    unfold postStrip pyStrip
    rw [List.dropWhile_append]
    by_cases hemp : (List.dropWhile und y).isEmpty = true
    · rw [if_pos hemp]
      simp only [List.isEmpty_iff] at hemp
      rw [hemp]
      rfl
    · rw [if_neg hemp]
      rw [dropTrail_snoc (by decide)]

lemma postStrip_collapseU_append_und (u : List Char) (hu : ∀ c ∈ u, c = '_') :
    ∀ x, postStrip (collapseU (x ++ u)) = postStrip (collapseU x) := by
  induction u with
  | nil => intro x; simp
  | cons c u' ih =>
    intro x
    have hc : c = '_' := hu c (by simp)
    subst hc
    have : x ++ ('_' :: u') = (x ++ ['_']) ++ u' := by simp
    rw [this, ih (fun c hc => hu c (by simp [hc])), postStrip_collapseU_snoc]

lemma dropTrail_decomposition (p : Char → Bool) (m : List Char) :
    ∃ w, m = dropTrail p m ++ w ∧ ∀ c ∈ w, p c = true := by
  induction m with
  | nil => exact ⟨[], by simp [dropTrail]⟩
  | cons c t ih =>
    obtain ⟨w, hw, hp⟩ := ih
    cases hdt : dropTrail p t with
    | nil =>
      by_cases hc : p c = true
      · refine ⟨c :: w, ?_, ?_⟩
        · rw [dropTrail, hdt]
          simp [hc]
          rw [hw, hdt]; simp
        · intro x hx
          rcases List.mem_cons.mp hx with h | h
          · subst h; exact hc
          · exact hp x h
      · refine ⟨w, ?_, hp⟩
        rw [dropTrail, hdt]
        simp [hc]
        rw [hw, hdt]; simp
    | cons b r =>
      refine ⟨w, ?_, hp⟩
      rw [dropTrail, hdt]
      simp only [List.cons_append]
      rw [hw, hdt]
      simp

lemma postStrip_map_dropTrail_ws (g : Char → Char)
    (hg : ∀ c, c.isWhitespace = true → g c = '_') (m : List Char) :
    postStrip (collapseU ((dropTrail Char.isWhitespace m).map g)) =
      postStrip (collapseU (m.map g)) := by
  obtain ⟨w, hw, hp⟩ := dropTrail_decomposition Char.isWhitespace m
  conv_rhs => rw [hw]
  rw [List.map_append]
  rw [postStrip_collapseU_append_und (w.map g)
    (fun c hc => by
      obtain ⟨a, ha, rfl⟩ := List.mem_map.mp hc
      exact hg a (hp a ha))]

lemma postStrip_map_dropWhile_ws (g : Char → Char)
    (hg : ∀ c, c.isWhitespace = true → g c = '_') (l : List Char) :
    postStrip (collapseU ((l.dropWhile Char.isWhitespace).map g)) =
      postStrip (collapseU (l.map g)) := by
  induction l with
  | nil => rfl
  | cons c t ih =>
    by_cases hc : c.isWhitespace = true
    · rw [List.dropWhile_cons, if_pos hc, ih]
      have : (c :: t).map g = '_' :: t.map g := by simp [hg c hc]
      rw [this, postStrip_cons_und]
    · rw [List.dropWhile_cons, if_neg hc]

theorem makeSafeList_eq_spec (l : List Char) : makeSafeList l = makeSafeSpecList l := by
  show postStrip
      (collapseU ((((pyStrip Char.isWhitespace l).map Char.toLower).map sepRepl).map toUnd)) =
    postStrip
      (collapseU (((l.map Char.toLower).map
        (fun c => if c = '/' ∨ c = '-' ∨ c = '.' then '_' else c)).map toUnd))
  rw [List.map_map, List.map_map, List.map_map, List.map_map]
  have hL : ((toUnd ∘ sepRepl) ∘ Char.toLower) = sanChar := funext fun c => rfl
  have hR : (((toUnd ∘ fun c => if c = '/' ∨ c = '-' ∨ c = '.' then '_' else c)) ∘ Char.toLower)
      = sanChar := funext fun c => (toUnd_sepRepl_eq_spec (Char.toLower c)).symm
  rw [hL, hR]
  unfold pyStrip
  rw [postStrip_map_dropTrail_ws sanChar (fun c h => sanChar_of_whitespace h)]
  exact postStrip_map_dropWhile_ws sanChar (fun c h => sanChar_of_whitespace h) l

lemma head?_dropWhile_not (p : Char → Bool) (y : List Char) (a : Char)
    (h : (y.dropWhile p).head? = some a) : p a = false := by
  induction y with
  | nil => simp at h
  | cons c t ih =>
    rw [List.dropWhile_cons] at h
    by_cases hc : p c = true
    · rw [if_pos hc] at h; exact ih h
    · rw [if_neg hc] at h
      simp at h
      subst h
      exact Bool.eq_false_iff.mpr hc

lemma dropTrail_head? (p : Char → Bool) (y : List Char) :
    dropTrail p y = [] ∨ (dropTrail p y).head? = y.head? := by
  cases y with
  | nil => exact Or.inl rfl
  | cons c t =>
    rw [dropTrail]
    cases dressed : dropTrail p t with
    | nil =>
      by_cases hc : p c = true
      · simp [hc]
      · simp [hc]
    | cons b r => simp

lemma dropTrail_getLast? (p : Char → Bool) (y : List Char) (a : Char)
    (h : (dropTrail p y).getLast? = some a) : p a = false := by
  induction y with
  | nil => simp [dropTrail] at h
  | cons c t ih =>
    rw [dropTrail] at h
    cases hdt : dropTrail p t with
    | nil =>
      rw [hdt] at h
      by_cases hc : p c = true
      · rw [if_pos hc] at h; simp at h
      · rw [if_neg hc] at h
        simp at h
        subst h
        exact Bool.eq_false_iff.mpr hc
    | cons b r =>
      rw [hdt] at h
      rw [getLast?_cons_of_ne_nil (by simp)] at h
      rw [← hdt] at h
      exact ih h

lemma postStrip_ne_nil (y : List Char) : postStrip y ≠ [] := by
  unfold postStrip
  by_cases h : pyStrip und y = []
  · simp [h]
  · simp [h]

lemma postStrip_head? (y : List Char) : (postStrip y).head? ≠ some '_' := by
  unfold postStrip
  by_cases h : pyStrip und y = []
  · simp [h]
  · rw [if_neg h]
    unfold pyStrip at h ⊢
    rcases dropTrail_head? und (y.dropWhile und) with h2 | h2
    · exact absurd h2 h
    · rw [h2]
      intro hcon
      have := head?_dropWhile_not und y '_' hcon
      simp [und] at this

lemma postStrip_getLast? (y : List Char) : (postStrip y).getLast? ≠ some '_' := by
  unfold postStrip
  by_cases h : pyStrip und y = []
  · simp [h]
  · rw [if_neg h]
    intro hcon
    have := dropTrail_getLast? und (y.dropWhile und) '_' hcon
    simp [und] at this

lemma mem_dedupFirst {α : Type} [DecidableEq α] (a : α) (l : List α) :
    a ∈ dedupFirst l ↔ a ∈ l := by
  induction l using dedupFirst.induct with
  | case1 => simp [dedupFirst]
  | case2 x xs ih =>
    rw [dedupFirst]
    by_cases hax : a = x
    · subst hax; simp
    · simp only [List.mem_cons, ih, List.mem_filter]
      constructor
      · rintro (h | ⟨h, _⟩)
        · exact absurd h hax
        · exact Or.inr h
      · rintro (h | h)
        · exact absurd h hax
        · exact Or.inr ⟨h, by simp [hax]⟩

lemma nodup_dedupFirst {α : Type} [DecidableEq α] (l : List α) :
    (dedupFirst l).Nodup := by
  induction l using dedupFirst.induct with
  | case1 => simp [dedupFirst]
  | case2 x xs ih =>
    rw [dedupFirst]
    refine List.Nodup.cons ?_ ih
    intro hmem
    rw [mem_dedupFirst] at hmem
    exact absurd (List.mem_filter.mp hmem).2 (by simp)

lemma indexOf_filter_lt {α : Type} [DecidableEq α] (x a b : α) (ha : a ≠ x) (hb : b ≠ x) :
    ∀ xs : List α, a ∈ xs →
      (xs.filter (fun y => y ≠ x)).indexOf a < (xs.filter (fun y => y ≠ x)).indexOf b →
      xs.indexOf a < xs.indexOf b := by
  intro xs
  induction xs with
  | nil => intro h; exact absurd h (by simp)
  | cons y ys ih =>
    intro hmem hlt
    by_cases hyx : y = x
    · subst hyx
      rw [List.filter_cons_of_neg (by simp)] at hlt
      have hmem' : a ∈ ys := by
        rcases List.mem_cons.mp hmem with h | h
        · exact absurd h ha
        · exact h
      rw [List.indexOf_cons_ne _ (Ne.symm ha), List.indexOf_cons_ne _ (Ne.symm hb)]
      exact Nat.succ_lt_succ (ih hmem' hlt)
    · rw [List.filter_cons_of_pos (by simp [hyx])] at hlt
      by_cases hay : a = y
      · subst hay
        rw [List.indexOf_cons_self] at hlt ⊢
        have hby : b ≠ a := by
          intro h
          subst h
          rw [List.indexOf_cons_self] at hlt
          exact Nat.lt_irrefl _ hlt
        rw [List.indexOf_cons_ne _ (Ne.symm hby)]
        exact Nat.succ_pos _
      · by_cases hby : b = y
        · subst hby
          rw [List.indexOf_cons_self] at hlt
          exact absurd hlt (Nat.not_lt_zero _)
        · have hmem' : a ∈ ys := by
            rcases List.mem_cons.mp hmem with h | h
            · exact absurd h hay
            · exact h
          rw [List.indexOf_cons_ne _ (Ne.symm hay), List.indexOf_cons_ne _ (Ne.symm hby)] at hlt ⊢
          exact Nat.succ_lt_succ (ih hmem' (Nat.lt_of_succ_lt_succ hlt))

lemma pairwise_indexOf_dedupFirst {α : Type} [DecidableEq α] (l : List α) :
    (dedupFirst l).Pairwise (fun a b => l.indexOf a < l.indexOf b) := by
  induction l using dedupFirst.induct with
  | case1 => simp [dedupFirst]
  | case2 x xs ih =>
    rw [dedupFirst]
    refine List.Pairwise.cons ?_ ?_
    · intro b hb
      have hbmem := (mem_dedupFirst b _).mp hb
      have hbx : b ≠ x := by
        intro h
        subst h
        exact absurd (List.mem_filter.mp hbmem).2 (by simp)
      rw [List.indexOf_cons_self, List.indexOf_cons_ne _ (Ne.symm hbx)]
      exact Nat.succ_pos _
    · refine List.Pairwise.imp_of_mem ?_ ih
      intro a b ha hb hab
      have hamem := (mem_dedupFirst a _).mp ha
      have hbmem := (mem_dedupFirst b _).mp hb
      have hax : a ≠ x := by
        intro h; subst h
        exact absurd (List.mem_filter.mp hamem).2 (by simp)
      have hbx : b ≠ x := by
        intro h; subst h
        exact absurd (List.mem_filter.mp hbmem).2 (by simp)
      rw [List.indexOf_cons_ne _ (Ne.symm hax), List.indexOf_cons_ne _ (Ne.symm hbx)]
      exact Nat.succ_lt_succ
        (indexOf_filter_lt x a b hax hbx xs (List.mem_filter.mp hamem).1 hab)

lemma withKeys_map_snd {α : Type} (n : Nat) (l : List α) :
    (withKeys n l).map Prod.snd = l := by
  induction l generalizing n with
  | nil => rfl
  | cons v vs ih => simp [withKeys, ih]

lemma withKeys_map_fst {α : Type} (n : Nat) (l : List α) :
    (withKeys n l).map Prod.fst = List.range' n l.length := by
  induction l generalizing n with
  | nil => rfl
  | cons v vs ih => simp [withKeys, ih, List.range'_succ]

lemma withKeys_length {α : Type} (n : Nat) (l : List α) :
    (withKeys n l).length = l.length := by
  induction l generalizing n with
  | nil => rfl
  | cons v vs ih => simp [withKeys, ih]

lemma withKeys_pairwise_fst {α : Type} (n : Nat) (l : List α) :
    (withKeys n l).Pairwise (fun p q => p.1 < q.1) := by
  have h := List.pairwise_lt_range' n l.length
  rw [← withKeys_map_fst] at h
  exact List.pairwise_map.mp h

lemma withKeys_pairwise_snd {α : Type} {S : α → α → Prop} (n : Nat) {l : List α}
    (h : l.Pairwise S) : (withKeys n l).Pairwise (fun p q => S p.2 q.2) := by
  have h2 : ((withKeys n l).map Prod.snd).Pairwise S := by
    rw [withKeys_map_snd]; exact h
  exact List.pairwise_map.mp h2

lemma getCol_length {df : DF} (hwf : df.wf) {name : String} (hmem : name ∈ df.colNames) :
    (df.getCol name).length = df.nrows := by
  unfold DF.getCol
  cases hfind : df.cols.find? (fun c => c.1 == name) with
  | none =>
    rw [List.find?_eq_none] at hfind
    obtain ⟨c, hc, hceq⟩ := List.mem_map.mp hmem
    exact absurd (by simp [hceq]) (hfind c hc)
  | some c =>
    exact hwf.2 c (List.mem_of_find?_eq_some hfind)

lemma pickProductCol_mem {df : DF} {c : String} (h : pickProductCol df = some c) :
    c ∈ df.colNames := by
  have := List.find?_some h
  simpa using this

lemma pickProductCol_candidates {df : DF} {c : String} (h : pickProductCol df = some c) :
    c = "product" ∨ c = "product_name" := by
  have := List.mem_of_find?_eq_some h
  simpa using this

lemma pickChannelCol_eq {df : DF} {c : String} (h : pickChannelCol df = some c) :
    c = "submitted_via" ∧ c ∈ df.colNames := by
  unfold pickChannelCol at h
  by_cases hmem : "submitted_via" ∈ df.colNames
  · rw [if_pos hmem] at h
    cases h
    exact ⟨rfl, hmem⟩
  · rw [if_neg hmem] at h
    cases h

lemma normalizeAndLoad_ok {df : DF} {w : List WriteOp} {out : POut}
    (h : normalizeAndLoad df = (w, Except.ok out)) :
    ∃ pcol ccol, pickProductCol df = some pcol ∧ pickChannelCol df = some ccol ∧
      out = runETL df pcol ccol ∧
      w = [.stagingW, .dimProductW, .dimChannelW, .factW, .aggW] := by
  unfold normalizeAndLoad at h
  cases hp : pickProductCol df with
  | none => rw [hp] at h; simp at h
  | some pcol =>
    cases hc : pickChannelCol df with
    | none => rw [hp, hc] at h; simp at h
    | some ccol =>
      rw [hp, hc] at h
      refine ⟨pcol, ccol, rfl, rfl, ?_, ?_⟩
      · have := congrArg Prod.snd h
        simp at this
        exact this.symm
      · have := congrArg Prod.fst h
        simp at this
        exact this.symm

lemma complaintIds_length {df : DF} (hwf : df.wf) : (complaintIds df).length = df.nrows := by
  unfold complaintIds
  by_cases h : "complaint_id" ∈ df.colNames
  · rw [if_pos h, List.length_map, getCol_length hwf h]
  · rw [if_neg h, List.length_map, List.length_range]

lemma dateCol_length {df : DF} (hwf : df.wf) : (dateCol df).length = df.nrows := by
  unfold dateCol
  by_cases h : "date_received" ∈ df.colNames
  · rw [if_pos h, getCol_length hwf h]
  · rw [if_neg h, List.length_replicate]

lemma zipFact_length_eq {n : Nat} :
    ∀ {a : List String} {b c : List (Option Nat)} {d : List (Option String)},
      a.length = n → b.length = n → c.length = n → d.length = n →
      (zipFact a b c d).length = n := by
  induction n with
  | zero =>
    intro a b c d ha _ _ _
    rw [List.length_eq_zero] at ha
    subst ha
    rfl
  | succ n ih =>
    intro a b c d ha hb hc hd
    cases a with
    | nil => simp at ha
    | cons x as =>
      cases b with
      | nil => simp at hb
      | cons y bs =>
        cases c with
        | nil => simp at hc
        | cons z cs =>
          cases d with
          | nil => simp at hd
          | cons u ds =>
            simp only [zipFact, List.length_cons] at *
            rw [ih (by omega) (by omega) (by omega) (by omega)]

lemma runETL_fact_length {df : DF} {pcol ccol : String} (hwf : df.wf)
    (hp : pickProductCol df = some pcol) (hc : pickChannelCol df = some ccol) :
    (runETL df pcol ccol).fact.length = df.nrows :=
  zipFact_length_eq (complaintIds_length hwf)
    (by rw [List.length_map, getCol_length hwf (pickProductCol_mem hp)])
    (by rw [List.length_map, getCol_length hwf (pickChannelCol_eq hc).2])
    (dateCol_length hwf)

lemma zipFact_mem {a : List String} {b c : List (Option Nat)} {d : List (Option String)}
    {r : FactRow} (h : r ∈ zipFact a b c d) :
    r.complaint_id ∈ a ∧ r.product_id ∈ b ∧ r.channel_id ∈ c ∧ r.date_received ∈ d := by
  induction a generalizing b c d with
  | nil => simp [zipFact] at h
  | cons x as ih =>
    cases b with
    | nil => simp [zipFact] at h
    | cons y bs =>
      cases c with
      | nil => simp [zipFact] at h
      | cons z cs =>
        cases d with
        | nil => simp [zipFact] at h
        | cons u ds =>
          rw [zipFact] at h
          rcases List.mem_cons.mp h with h | h
          · subst h; simp
          · have := ih h
            simp [this]

lemma lookup_mem {v : String} {m : List (String × Nat)} {k : Nat}
    (h : m.lookup v = some k) : (v, k) ∈ m := by
  induction m with
  | nil => simp [List.lookup] at h
  | cons p t ih =>
    obtain ⟨pk, pv⟩ := p
    rw [List.lookup_cons] at h
    by_cases hv : v = pk
    · simp [hv] at h
      subst h
      simp [hv]
    · have hbeq : (v == pk) = false := by simp [hv]
      rw [hbeq] at h
      exact List.mem_cons_of_mem _ (ih h)

lemma cellMap_some_mem_keys {m : List (String × Nat)} {cell : Option String} {k : Nat}
    (h : cellMap m cell = some k) : k ∈ m.map Prod.snd := by
  cases cell with
  | none => simp [cellMap] at h
  | some v =>
    simp only [cellMap, Option.bind_some] at h
    exact List.mem_map.mpr ⟨(v, k), lookup_mem h, rfl⟩

lemma dimToMap_snd (dim : List (Nat × String)) :
    (dimToMap dim).map Prod.snd = dim.map Prod.fst := by
  unfold dimToMap
  rw [List.map_map]
  rfl

lemma zipFact_get? :
    ∀ {a : List String} {b c : List (Option Nat)} {d : List (Option String)} {i : Nat}
      {r : FactRow}, (zipFact a b c d).get? i = some r →
      a.get? i = some r.complaint_id ∧ b.get? i = some r.product_id ∧
      c.get? i = some r.channel_id ∧ d.get? i = some r.date_received := by
  intro a
  induction a with
  | nil => intro b c d i r h; simp [zipFact] at h
  | cons x as ih =>
    intro b c d i r h
    cases b with
    | nil => simp [zipFact] at h
    | cons y bs =>
      cases c with
      | nil => simp [zipFact] at h
      | cons z cs =>
        cases d with
        | nil => simp [zipFact] at h
        | cons u ds =>
          rw [zipFact] at h
          cases i with
          | zero =>
            simp only [List.get?_cons_zero, Option.some_inj] at h
            subst h
            simp
          | succ i =>
            simp only [List.get?_cons_succ] at h ⊢
            exact ih h

lemma cellMap_eq_none_iff (m : List (String × Nat)) (cell : Option String) :
    cellMap m cell = none ↔
      cell = none ∨ ∃ v, cell = some v ∧ m.lookup v = none := by
  cases cell with
  | none => simp [cellMap]
  | some v => simp [cellMap]

lemma sum_map_add {α : Type} (f g : α → Nat) (l : List α) :
    (l.map fun x => f x + g x).sum = (l.map f).sum + (l.map g).sum := by
  induction l with
  | nil => rfl
  | cons x t ih => simp [ih]; omega

lemma sum_map_indicator_eq_countP {α : Type} (p : α → Prop) [DecidablePred p] (l : List α) :
    (l.map fun x => if p x then 1 else 0).sum = l.countP (fun x => decide (p x)) := by
  induction l with
  | nil => rfl
  | cons x t ih =>
    rw [List.map_cons, List.sum_cons, List.countP_cons, ih]
    by_cases h : p x <;> simp [h] <;> omega

lemma product_cons_eq {α β : Type} (a : α) (l₁ : List α) (l₂ : List β) :
    (a :: l₁).product l₂ = (l₂.map fun b => (a, b)) ++ l₁.product l₂ := by
  simp [List.product]

lemma sum_map_const_mul {α : Type} (c : Nat) (g : α → Nat) (l : List α) :
    (l.map fun x => c * g x).sum = c * (l.map g).sum := by
  induction l with
  | nil => simp
  | cons x t ih => simp [ih, Nat.mul_add]

lemma sum_product_mul {α β : Type} (f : α → Nat) (g : β → Nat) (l₁ : List α) (l₂ : List β) :
    ((l₁.product l₂).map fun pr => f pr.1 * g pr.2).sum = (l₁.map f).sum * (l₂.map g).sum := by
  induction l₁ with
  | nil => simp [List.product]
  | cons a t ih =>
    rw [product_cons_eq, List.map_append, List.sum_append, List.map_map, List.map_cons,
      List.sum_cons, Nat.add_mul, ← ih]
    congr 1
    have : ((fun pr : α × β => f pr.1 * g pr.2) ∘ fun b => (a, b)) = fun b => f a * g b := rfl
    rw [this, sum_map_const_mul]

lemma countP_fst_eq_one {dim : List (Nat × String)} (hset : (dim.map Prod.fst).Nodup)
    {i : Nat} (hi : i ∈ dim.map Prod.fst) :
    dim.countP (fun dp => decide (dp.1 = i)) = 1 := by
  have hcount : (dim.map Prod.fst).count i = 1 := List.count_eq_one_of_mem hset hi
  rw [List.count, List.countP_map] at hcount
  rw [← hcount]
  apply List.countP_congr
  intro dp _
  by_cases h : dp.1 = i <;> simp [Function.comp, h]

lemma indicator_sum_pairs {dimP dimC : List (Nat × String)} {r : FactRow}
    (hP : (dimP.map Prod.fst).Nodup) (hC : (dimC.map Prod.fst).Nodup)
    (hRIP : ∀ k, r.product_id = some k → k ∈ dimP.map Prod.fst)
    (hRIC : ∀ k, r.channel_id = some k → k ∈ dimC.map Prod.fst) :
    ((dimP.product dimC).map fun pr => if matchesPair pr r then 1 else 0).sum =
      if bothSome r then 1 else 0 := by
  have hsplit : ∀ pr : (Nat × String) × (Nat × String),
      (if matchesPair pr r then 1 else 0) =
      (fun dp : Nat × String => if r.product_id = some dp.1 then 1 else 0) pr.1 *
      (fun dc : Nat × String => if r.channel_id = some dc.1 then 1 else 0) pr.2 := by
    intro pr
    unfold matchesPair
    by_cases h1 : r.product_id = some pr.1.1 <;>
      by_cases h2 : r.channel_id = some pr.2.1 <;> simp [h1, h2]
  calc ((dimP.product dimC).map fun pr => if matchesPair pr r then 1 else 0).sum
      = ((dimP.product dimC).map fun pr =>
          (fun dp : Nat × String => if r.product_id = some dp.1 then 1 else 0) pr.1 *
          (fun dc : Nat × String => if r.channel_id = some dc.1 then 1 else 0) pr.2).sum := by
        congr 1
        exact List.map_congr_left fun pr _ => hsplit pr
    _ = (dimP.map fun dp => if r.product_id = some dp.1 then 1 else 0).sum *
        (dimC.map fun dc => if r.channel_id = some dc.1 then 1 else 0).sum :=
        sum_product_mul (fun dp : Nat × String => if r.product_id = some dp.1 then 1 else 0)
          (fun dc : Nat × String => if r.channel_id = some dc.1 then 1 else 0) dimP dimC
    _ = if bothSome r then 1 else 0 := by
        rw [sum_map_indicator_eq_countP (fun dp : Nat × String => r.product_id = some dp.1),
          sum_map_indicator_eq_countP (fun dc : Nat × String => r.channel_id = some dc.1)]
        cases hpid : r.product_id with
        | none =>
          have hz : dimP.countP (fun dp => decide ((none : Option Nat) = some dp.1)) = 0 := by
            rw [List.countP_eq_zero]
            intro dp _
            simp
          rw [hz]
          simp [bothSome, hpid]
        | some i =>
          cases hcid : r.channel_id with
          | none =>
            have hz : dimC.countP (fun dc => decide ((none : Option Nat) = some dc.1)) = 0 := by
              rw [List.countP_eq_zero]
              intro dc _
              simp
            rw [hz]
            simp [bothSome, hpid, hcid]
          | some j =>
            have h1 : dimP.countP (fun dp => decide (some i = some dp.1)) = 1 := by
              rw [← countP_fst_eq_one hP (hRIP i hpid)]
              apply List.countP_congr
              intro dp _
              by_cases h : dp.1 = i <;> simp [h] <;> exact fun he => h he.symm
            have h2 : dimC.countP (fun dc => decide (some j = some dc.1)) = 1 := by
              rw [← countP_fst_eq_one hC (hRIC j hcid)]
              apply List.countP_congr
              intro dc _
              by_cases h : dc.1 = j <;> simp [h] <;> exact fun he => h he.symm
            rw [h1, h2]
            simp [bothSome, hpid, hcid]

lemma aggEntry_none {fact : List FactRow} {pr : (Nat × String) × (Nat × String)}
    (hk : fact.countP (matchesPair pr) = 0) : aggEntry fact pr = none := by
  simp [aggEntry, hk]

lemma aggEntry_some {fact : List FactRow} {pr : (Nat × String) × (Nat × String)}
    (hk : ¬fact.countP (matchesPair pr) = 0) :
    aggEntry fact pr =
      some ⟨pr.1.1, pr.1.2, pr.2.1, pr.2.2, fact.countP (matchesPair pr)⟩ := by
  simp [aggEntry, hk]

lemma agg_sum_eq_pairs_sum (pairs : List ((Nat × String) × (Nat × String)))
    (fact : List FactRow) :
    ((pairs.filterMap (aggEntry fact)).map AggRow.complaints_count).sum =
    (pairs.map fun pr => fact.countP (matchesPair pr)).sum := by
  induction pairs with
  | nil => rfl
  | cons pr t ih =>
    by_cases hk : fact.countP (matchesPair pr) = 0
    · rw [List.filterMap_cons, aggEntry_none hk, List.map_cons, List.sum_cons, ih, hk,
        Nat.zero_add]
    · rw [List.filterMap_cons, aggEntry_some hk, List.map_cons, List.map_cons, List.sum_cons,
        List.sum_cons, ih]

lemma pairs_sum_eq_countP_bothSome {dimP dimC : List (Nat × String)}
    (hP : (dimP.map Prod.fst).Nodup) (hC : (dimC.map Prod.fst).Nodup)
    (fact : List FactRow)
    (hRI : ∀ r ∈ fact,
      (∀ k, r.product_id = some k → k ∈ dimP.map Prod.fst) ∧
      (∀ k, r.channel_id = some k → k ∈ dimC.map Prod.fst)) :
    ((dimP.product dimC).map fun pr => fact.countP (matchesPair pr)).sum =
      fact.countP bothSome := by
  induction fact with
  | nil => simp
  | cons r t ih =>
    have hr := hRI r (by simp)
    have ht : ∀ r' ∈ t, (∀ k, r'.product_id = some k → k ∈ dimP.map Prod.fst) ∧
        (∀ k, r'.channel_id = some k → k ∈ dimC.map Prod.fst) :=
      fun r' hr' => hRI r' (by simp [hr'])
    rw [List.countP_cons]
    have hsplit : ((dimP.product dimC).map fun pr => (r :: t).countP (matchesPair pr)).sum =
        ((dimP.product dimC).map fun pr => t.countP (matchesPair pr)).sum +
        ((dimP.product dimC).map fun pr => if matchesPair pr r then 1 else 0).sum := by
      rw [← sum_map_add]
      congr 1
      apply List.map_congr_left
      intro pr _
      rw [List.countP_cons]
    rw [hsplit, ih ht, indicator_sum_pairs hP hC hr.1 hr.2]

lemma agg_keys_eq_filtered_pairs (pairs : List ((Nat × String) × (Nat × String)))
    (fact : List FactRow) :
    (pairs.filterMap (aggEntry fact)).map (fun a => (a.product_id, a.channel_id)) =
    (pairs.filter (fun pr => decide (fact.countP (matchesPair pr) ≠ 0))).map
      (fun pr => (pr.1.1, pr.2.1)) := by
  induction pairs with
  | nil => rfl
  | cons pr t ih =>
    rw [List.filter_cons]
    by_cases hk : fact.countP (matchesPair pr) = 0
    · rw [List.filterMap_cons, aggEntry_none hk]
      simp only [hk, ne_eq, not_true_eq_false, decide_eq_true_eq, if_false]
      exact ih
    · rw [List.filterMap_cons, aggEntry_some hk]
      simp only [hk, ne_eq, not_false_eq_true, decide_eq_true_eq, if_true, List.map_cons]
      rw [ih]

lemma map_pair_fst_product (dimP dimC : List (Nat × String)) :
    (dimP.product dimC).map (fun pr => (pr.1.1, pr.2.1)) =
      (dimP.map Prod.fst).product (dimC.map Prod.fst) := by
  induction dimP with
  | nil => simp [List.product]
  | cons dp t ih =>
    rw [product_cons_eq, List.map_append, List.map_cons, product_cons_eq, List.map_map, ← ih]
    congr 1
    rw [List.map_map]
    rfl

lemma agg_keys_nodup {dimP dimC : List (Nat × String)}
    (hP : (dimP.map Prod.fst).Nodup) (hC : (dimC.map Prod.fst).Nodup)
    (fact : List FactRow) :
    ((buildAgg dimP dimC fact).map (fun a => (a.product_id, a.channel_id))).Nodup := by
  unfold buildAgg
  rw [agg_keys_eq_filtered_pairs]
  have hsub : ((dimP.product dimC).filter
      (fun pr => decide (fact.countP (matchesPair pr) ≠ 0))).map (fun pr => (pr.1.1, pr.2.1))
      |>.Sublist ((dimP.product dimC).map (fun pr => (pr.1.1, pr.2.1))) :=
    List.Sublist.map _ (List.filter_sublist _)
  apply hsub.nodup
  rw [map_pair_fst_product]
  exact hP.product hC

lemma buildDim_keys_nodup (col : List (Option String)) :
    ((buildDim col).map Prod.fst).Nodup := by
  rw [buildDim, withKeys_map_fst]
  exact List.nodup_range' _ _

lemma runETL_fact_RI (df : DF) (pcol ccol : String) :
    ∀ r ∈ (runETL df pcol ccol).fact,
      (∀ k, r.product_id = some k → k ∈ (runETL df pcol ccol).dimProduct.map Prod.fst) ∧
      (∀ k, r.channel_id = some k → k ∈ (runETL df pcol ccol).dimChannel.map Prod.fst) := by
  intro r hr
  have hmem := zipFact_mem hr
  constructor
  · intro k hk
    rw [hk] at hmem
    obtain ⟨cell, -, hcell⟩ := List.mem_map.mp hmem.2.1
    rw [show (runETL df pcol ccol).dimProduct = buildDim (df.getCol pcol) from rfl,
      ← dimToMap_snd]
    exact cellMap_some_mem_keys hcell
  · intro k hk
    rw [hk] at hmem
    obtain ⟨cell, -, hcell⟩ := List.mem_map.mp hmem.2.2.1
    rw [show (runETL df pcol ccol).dimChannel = buildDim (df.getCol ccol) from rfl,
      ← dimToMap_snd]
    exact cellMap_some_mem_keys hcell

lemma find?_filter_of_imp {α : Type} {l : List α} {p q : α → Bool}
    (h : ∀ x, p x = true → q x = true) : (l.filter q).find? p = l.find? p := by
  induction l with
  | nil => rfl
  | cons x t ih =>
    rw [List.filter_cons]
    by_cases hq : q x = true
    · rw [if_pos hq, List.find?_cons, List.find?_cons]
      cases hp : p x
      · exact ih
      · rfl
    · rw [if_neg hq]
      have hp : p x = false := by
        cases hpx : p x
        · rfl
        · exact absurd (h x hpx) hq
      rw [List.find?_cons, hp]
      exact ih

lemma getTable_setTable (s : Store) (n m : String) (v : TableVal) :
    getTable (setTable s m v) n = if n = m then some v else getTable s n := by
  unfold getTable setTable
  rw [List.find?_cons]
  by_cases hnm : n = m
  · subst hnm
    simp
  · have : (m == n) = false := by
      simp
      exact fun h => hnm h.symm
    rw [this, if_neg hnm]
    congr 1
    apply find?_filter_of_imp
    intro x hx
    simp at hx
    simp [hx]
    exact fun h => hnm (h ▸ rfl)
/-- C1: for every categorical axis column, the dimension builder
(`dropna().drop_duplicates()` with surrogate key `index + 1`) yields exactly
the distinct non-missing values of the column, each exactly once, with
surrogate keys densely `1..N` assigned in order of first appearance in
source row order (key order strictly follows first-occurrence order in the
non-missing value sequence). The pipeline dimension tables are
`buildDim` of the chosen axis column (see the C10 theorem). -/

theorem dim_builder_distinct_dense_first_appearance (col : List (Option String)) :
    (∀ v : String, (∃ k, (k, v) ∈ buildDim col) ↔ some v ∈ col) ∧
    ((buildDim col).map Prod.snd).Nodup ∧
    (buildDim col).map Prod.fst = List.range' 1 (buildDim col).length ∧
    (buildDim col).Pairwise (fun p q =>
      p.1 < q.1 ∧ (col.filterMap id).indexOf p.2 < (col.filterMap id).indexOf q.2) := by
  refine ⟨?_, ?_, ?_, ?_⟩
  · intro v
    have hchain : v ∈ (buildDim col).map Prod.snd ↔ some v ∈ col := by
      rw [buildDim, withKeys_map_snd, mem_dedupFirst]
      simp
    rw [← hchain]
    constructor
    · rintro ⟨k, hk⟩
      exact List.mem_map.mpr ⟨(k, v), hk, rfl⟩
    · intro h
      obtain ⟨⟨k, v'⟩, hmem, hv⟩ := List.mem_map.mp h
      cases hv
      exact ⟨k, hmem⟩
  · rw [buildDim, withKeys_map_snd]
    exact nodup_dedupFirst _
  · rw [buildDim, withKeys_map_fst, withKeys_length]
  · exact (withKeys_pairwise_fst 1 _).and
      (withKeys_pairwise_snd 1 (pairwise_indexOf_dedupFirst _))

/-- C2: the fact table has exactly one row per staging record: its length
equals the row count of the staged source, no matter how many foreign keys
resolve to `none`. -/

theorem fact_count_eq_staging_count {df : DF} {w : List WriteOp} {out : POut}
    (hwf : df.wf) (h : normalizeAndLoad df = (w, Except.ok out)) :
    out.fact.length = df.nrows := by
  obtain ⟨pcol, ccol, hp, hc, hout, -⟩ := normalizeAndLoad_ok h
  subst hout
  exact runETL_fact_length hwf hp hc

/-- C2 witness: the specification scenario source `df3` is well-formed and
its fact table has as many rows as the staging copy. -/
theorem fact_count_eq_staging_count_witness :
    df3.wf ∧ out3.fact.length = df3.nrows := by
  have hwf : df3.wf := ⟨by decide, by decide⟩
  exact ⟨hwf, fact_count_eq_staging_count hwf rfl⟩

/-- C3: referential integrity and the null-foreign-key contract: every
non-null foreign key of a fact row is the surrogate key of a dimension row
on its axis, every fact row foreign key is the lookup of the source cell in
the value-to-key map, and it is null exactly when the raw cell was missing
or its value is not found in that map. -/

theorem fact_fk_referential_integrity {df : DF} {w : List WriteOp} {out : POut}
    (hwf : df.wf) (h : normalizeAndLoad df = (w, Except.ok out)) :
    (∀ r ∈ out.fact,
      (∀ k, r.product_id = some k → k ∈ out.dimProduct.map Prod.fst) ∧
      (∀ k, r.channel_id = some k → k ∈ out.dimChannel.map Prod.fst)) ∧
    (∀ i cellP, (df.getCol out.productCol).get? i = some cellP →
      ∃ r, out.fact.get? i = some r ∧
        r.product_id = cellMap (dimToMap out.dimProduct) cellP ∧
        (r.product_id = none ↔
          cellP = none ∨ ∃ v, cellP = some v ∧ (dimToMap out.dimProduct).lookup v = none)) ∧
    (∀ i cellC, (df.getCol out.channelCol).get? i = some cellC →
      ∃ r, out.fact.get? i = some r ∧
        r.channel_id = cellMap (dimToMap out.dimChannel) cellC ∧
        (r.channel_id = none ↔
          cellC = none ∨ ∃ v, cellC = some v ∧ (dimToMap out.dimChannel).lookup v = none)) := by
  obtain ⟨pcol, ccol, hp, hc, hout, -⟩ := normalizeAndLoad_ok h
  have hlen : out.fact.length = df.nrows := by
    obtain ⟨pcol', ccol', hp', hc', hout', -⟩ := normalizeAndLoad_ok h
    subst hout'
    exact runETL_fact_length hwf hp' hc'
  have hplen : (df.getCol pcol).length = df.nrows := getCol_length hwf (pickProductCol_mem hp)
  have hclen : (df.getCol ccol).length = df.nrows := getCol_length hwf (pickChannelCol_eq hc).2
  subst hout
  have hpcol : (runETL df pcol ccol).productCol = pcol := rfl
  have hccol : (runETL df pcol ccol).channelCol = ccol := rfl
  have hdimP : (runETL df pcol ccol).dimProduct = buildDim (df.getCol pcol) := rfl
  have hdimC : (runETL df pcol ccol).dimChannel = buildDim (df.getCol ccol) := rfl
  refine ⟨?_, ?_, ?_⟩
  · intro r hr
    have hmem := zipFact_mem hr
    constructor
    · intro k hk
      rw [hk] at hmem
      obtain ⟨cell, -, hcell⟩ := List.mem_map.mp hmem.2.1
      rw [← dimToMap_snd]
      exact cellMap_some_mem_keys hcell
    · intro k hk
      rw [hk] at hmem
      obtain ⟨cell, -, hcell⟩ := List.mem_map.mp hmem.2.2.1
      rw [← dimToMap_snd]
      exact cellMap_some_mem_keys hcell
  · intro i cellP hcell
    rw [hpcol] at hcell
    rw [hdimP]
    have hi : i < (df.getCol pcol).length := by
      by_contra hge
      rw [not_lt] at hge
      rw [List.get?_eq_none.mpr hge] at hcell
      cases hcell
    cases hfact : (runETL df pcol ccol).fact.get? i with
    | none =>
      have := List.get?_eq_none.mp hfact
      rw [hlen] at this
      omega
    | some r =>
      refine ⟨r, rfl, ?_⟩
      have hproj := zipFact_get? hfact
      have : ((df.getCol pcol).map (cellMap (dimToMap (buildDim (df.getCol pcol))))).get? i =
          some r.product_id := hproj.2.1
      rw [List.get?_map, hcell] at this
      simp only [Option.map_some', Option.some_inj] at this
      refine ⟨this.symm, ?_⟩
      rw [this.symm]
      exact cellMap_eq_none_iff _ _
  · intro i cellC hcell
    rw [hccol] at hcell
    rw [hdimC]
    have hi : i < (df.getCol ccol).length := by
      by_contra hge
      rw [not_lt] at hge
      rw [List.get?_eq_none.mpr hge] at hcell
      cases hcell
    cases hfact : (runETL df pcol ccol).fact.get? i with
    | none =>
      have := List.get?_eq_none.mp hfact
      rw [hlen] at this
      omega
    | some r =>
      refine ⟨r, rfl, ?_⟩
      have hproj := zipFact_get? hfact
      have : ((df.getCol ccol).map (cellMap (dimToMap (buildDim (df.getCol ccol))))).get? i =
          some r.channel_id := hproj.2.2.1
      rw [List.get?_map, hcell] at this
      simp only [Option.map_some', Option.some_inj] at this
      refine ⟨this.symm, ?_⟩
      rw [this.symm]
      exact cellMap_eq_none_iff _ _

/-- C3 witness: referential integrity holds on the specification scenario
source `df3`. -/
theorem fact_fk_referential_integrity_witness :
    df3.wf ∧
    (∀ r ∈ out3.fact,
      (∀ k, r.product_id = some k → k ∈ out3.dimProduct.map Prod.fst) ∧
      (∀ k, r.channel_id = some k → k ∈ out3.dimChannel.map Prod.fst)) := by
  have hwf : df3.wf := ⟨by decide, by decide⟩
  exact ⟨hwf, (fact_fk_referential_integrity hwf rfl).1⟩

/-- C4: the aggregate has one row per product/channel key combination that
actually occurs among fact rows with both foreign keys non-null (rows with a
null key on either axis are excluded), every count is at least 1, and the
counts sum to the number of fact rows with both foreign keys non-null. -/

theorem aggregate_partition {df : DF} {w : List WriteOp} {out : POut}
    (hwf : df.wf) (h : normalizeAndLoad df = (w, Except.ok out)) :
    (∀ a ∈ out.agg, 1 ≤ a.complaints_count) ∧
    ((out.agg.map fun a => (a.product_id, a.channel_id)).Nodup) ∧
    (∀ i j : Nat, (i, j) ∈ out.agg.map (fun a => (a.product_id, a.channel_id)) ↔
       ∃ r ∈ out.fact, r.product_id = some i ∧ r.channel_id = some j) ∧
    (out.agg.map AggRow.complaints_count).sum = out.fact.countP bothSome := by
  obtain ⟨pcol, ccol, hp, hc, hout, -⟩ := normalizeAndLoad_ok h
  subst hout
  have hP : ((runETL df pcol ccol).dimProduct.map Prod.fst).Nodup := buildDim_keys_nodup _
  have hC : ((runETL df pcol ccol).dimChannel.map Prod.fst).Nodup := buildDim_keys_nodup _
  have hRI := runETL_fact_RI df pcol ccol
  have hagg : (runETL df pcol ccol).agg =
      buildAgg (runETL df pcol ccol).dimProduct (runETL df pcol ccol).dimChannel
        (runETL df pcol ccol).fact := rfl
  refine ⟨?_, ?_, ?_, ?_⟩
  · intro a ha
    rw [hagg] at ha
    obtain ⟨pr, -, hpr⟩ := List.mem_filterMap.mp ha
    by_cases hk : (runETL df pcol ccol).fact.countP (matchesPair pr) = 0
    · rw [aggEntry_none hk] at hpr
      cases hpr
    · rw [aggEntry_some hk] at hpr
      cases hpr
      exact Nat.one_le_iff_ne_zero.mpr hk
  · rw [hagg]
    exact agg_keys_nodup hP hC _
  · intro i j
    rw [hagg]
    unfold buildAgg
    rw [agg_keys_eq_filtered_pairs]
    constructor
    · intro hmem
      obtain ⟨pr, hprf, hpreq⟩ := List.mem_map.mp hmem
      obtain ⟨hprmem, hprcnt⟩ := List.mem_filter.mp hprf
      simp only [ne_eq, decide_eq_true_eq] at hprcnt
      have hpos : 0 < (runETL df pcol ccol).fact.countP (matchesPair pr) :=
        Nat.pos_of_ne_zero hprcnt
      obtain ⟨r, hrmem, hrmatch⟩ := List.countP_pos.mp hpos
      unfold matchesPair at hrmatch
      rw [decide_eq_true_eq] at hrmatch
      have hij : pr.1.1 = i ∧ pr.2.1 = j := Prod.mk.injEq .. ▸ Prod.mk.inj hpreq
      refine ⟨r, hrmem, ?_, ?_⟩
      · rw [hrmatch.1, hij.1]
      · rw [hrmatch.2, hij.2]
    · rintro ⟨r, hrmem, hri, hrj⟩
      have hkeysP := (hRI r hrmem).1 i hri
      have hkeysC := (hRI r hrmem).2 j hrj
      obtain ⟨dp, hdp, hdpi⟩ := List.mem_map.mp hkeysP
      obtain ⟨dc, hdc, hdcj⟩ := List.mem_map.mp hkeysC
      have hprmem : (dp, dc) ∈
          (runETL df pcol ccol).dimProduct.product (runETL df pcol ccol).dimChannel :=
        List.pair_mem_product.mpr ⟨hdp, hdc⟩
      have hmatch : matchesPair (dp, dc) r = true := by
        unfold matchesPair
        rw [decide_eq_true_eq]
        exact ⟨by rw [hri, hdpi], by rw [hrj, hdcj]⟩
      have hpos : 0 < (runETL df pcol ccol).fact.countP (matchesPair (dp, dc)) :=
        List.countP_pos.mpr ⟨r, hrmem, hmatch⟩
      refine List.mem_map.mpr ⟨(dp, dc), ?_, ?_⟩
      · exact List.mem_filter.mpr ⟨hprmem, by
          simp only [ne_eq, decide_eq_true_eq]
          omega⟩
      · simp [hdpi, hdcj]
  · rw [hagg]
    unfold buildAgg
    rw [agg_sum_eq_pairs_sum, pairs_sum_eq_countP_bothSome hP hC _ hRI]

/-- C4 witness: on the specification scenario source `df3` the aggregate
counts sum to the number of fact rows with both keys non-null. -/
theorem aggregate_partition_witness :
    df3.wf ∧
    (out3.agg.map AggRow.complaints_count).sum = out3.fact.countP bothSome := by
  have hwf : df3.wf := ⟨by decide, by decide⟩
  exact ⟨hwf, (aggregate_partition hwf rfl).2.2.2⟩

/-- C5 counterexample: on a source with no categorical axis columns the run
does fail with the missing-column error, but the staging write has already
been issued when the error is raised — the write trace is not empty, so the
error is not surfaced before any write to the sink. -/

theorem missing_column_staging_already_written :
    (normalizeAndLoad dfMissing).2 =
      Except.error (.missingRequiredColumn ["product/product_name", "submitted_via"]) ∧
    WriteOp.stagingW ∈ (normalizeAndLoad dfMissing).1 ∧
    (normalizeAndLoad dfMissing).1 ≠ [] := by
  refine ⟨rfl, ?_, ?_⟩ <;> decide

/-- C5 amended: when a configured categorical axis column is absent the
pipeline fails with the missing-column error after the staging write but
before any dimension, fact, or aggregate write: the write trace is exactly
the staging write. -/

theorem missing_column_error_only_staging (df : DF) (e : ETLError)
    (h : (normalizeAndLoad df).2 = Except.error e) :
    (normalizeAndLoad df).1 = [WriteOp.stagingW] := by
  unfold normalizeAndLoad at h ⊢
  cases hp : pickProductCol df with
  | none => rfl
  | some pcol =>
    cases hc : pickChannelCol df with
    | none => rfl
    | some ccol =>
      rw [hp, hc] at h
      simp at h

/-- C5 witness: the amended claim at the concrete one-column source. -/
theorem missing_column_error_only_staging_witness :
    (normalizeAndLoad dfMissing).2 =
      Except.error (.missingRequiredColumn ["product/product_name", "submitted_via"]) ∧
    (normalizeAndLoad dfMissing).1 = [WriteOp.stagingW] :=
  ⟨rfl, missing_column_error_only_staging dfMissing
    (.missingRequiredColumn ["product/product_name", "submitted_via"]) rfl⟩

/-- C6 counterexample: with the labels of the specification collision
scenario, the sanitized source produced by the rename is not the
overwrite-semantics result — both columns survive under the duplicate
canonical label `product_name`, the later one does not replace the
earlier. -/

theorem rename_collision_not_overwrite :
    renameColumns dfCollide ≠ renameOverwrite dfCollide ∧
    (renameColumns dfCollide).cols.map Prod.fst = ["product_name", "product_name"] := by
  constructor
  · decide
  · decide

/-- C6 amended: the rename applies the sanitizer label-wise and raises no
error: every column is kept (names sanitized, values untouched, count
preserved), so two colliding labels yield two columns under the same
canonical name rather than the later silently overwriting the earlier. -/

theorem rename_keeps_all_columns (df : DF) :
    (renameColumns df).cols.map Prod.fst = df.cols.map (fun c => makeSafe c.1) ∧
    (renameColumns df).cols.map Prod.snd = df.cols.map Prod.snd ∧
    (renameColumns df).cols.length = df.cols.length := by
  refine ⟨?_, ?_, ?_⟩ <;> simp [renameColumns]

/-- C7: the column sanitizer computes exactly the specified algorithm
(lower-case, slash/dash/dot and every other non-alphanumeric character to
the separator, separator runs collapsed, leading/trailing separators
stripped, fallback `col` when empty), and consequently no canonical name is
empty and none begins or ends with the separator. -/

theorem sanitizer_algorithm_and_invariants (col : String) :
    makeSafe col = makeSafeSpec col ∧
    makeSafe col ≠ "" ∧
    (makeSafe col).data.head? ≠ some '_' ∧
    (makeSafe col).data.getLast? ≠ some '_' := by
  refine ⟨?_, ?_, ?_, ?_⟩
  · show (⟨makeSafeList col.data⟩ : String) = ⟨makeSafeSpecList col.data⟩
    rw [makeSafeList_eq_spec]
  · intro hcon
    have : makeSafeList col.data = [] := congrArg String.data hcon
    exact postStrip_ne_nil _ this
  · exact postStrip_head? _
  · exact postStrip_getLast? _

/-- C8: the pipeline is idempotent against the sink: a second run on the
same source leaves every table of the store — staging, dimensions, fact,
aggregate, and any unrelated table — exactly as after the first run, because
each pipeline table is fully replaced rather than appended to. -/

theorem pipeline_idempotent (df : DF) (s : Store) (n : String) :
    getTable (applyRun df (applyRun df s)) n = getTable (applyRun df s) n := by
  unfold applyRun
  cases hres : normalizeAndLoad df with
  | mk w res =>
    cases res with
    | error e =>
      simp only [getTable_setTable]
      split_ifs <;> rfl
    | ok out =>
      simp only [getTable_setTable]
      split_ifs <;> rfl

/-- C10: the product axis is chosen by probing `product` before
`product_name`: when both are present the pipeline uses `product` (building
the product dimension and the fact foreign keys from that column and
ignoring `product_name`), and the channel axis is accepted only under the
exact name `submitted_via`. -/

theorem axis_selection_order {df : DF}
    (hprod : "product" ∈ df.colNames) (hname : "product_name" ∈ df.colNames) :
    pickProductCol df = some "product" ∧
    (∀ c, pickChannelCol df = some c → c = "submitted_via") ∧
    (∀ w out, normalizeAndLoad df = (w, Except.ok out) →
      out.productCol = "product" ∧ out.channelCol = "submitted_via" ∧
      out.dimProduct = buildDim (df.getCol "product") ∧
      out.fact = zipFact (complaintIds df)
        ((df.getCol "product").map (cellMap (dimToMap (buildDim (df.getCol "product")))))
        ((df.getCol "submitted_via").map
          (cellMap (dimToMap (buildDim (df.getCol "submitted_via")))))
        (dateCol df)) := by
  have hpick : pickProductCol df = some "product" := by
    unfold pickProductCol
    rw [List.find?_cons]
    simp [hprod]
  refine ⟨hpick, ?_, ?_⟩
  · intro c hc
    exact (pickChannelCol_eq hc).1
  · intro w out hout
    obtain ⟨pcol, ccol, hp, hc, houteq, -⟩ := normalizeAndLoad_ok hout
    have hpc : pcol = "product" := by
      rw [hpick] at hp
      cases hp
      rfl
    have hcc : ccol = "submitted_via" := (pickChannelCol_eq hc).1
    subst houteq hpc hcc
    exact ⟨rfl, rfl, rfl, rfl⟩

/-- C10 witness: on a source with both product candidate columns, the
`product` column is selected. -/
theorem axis_selection_order_witness :
    ("product" ∈ dfBoth.colNames ∧ "product_name" ∈ dfBoth.colNames) ∧
    pickProductCol dfBoth = some "product" :=
  ⟨⟨by decide, by decide⟩, (axis_selection_order (by decide) (by decide)).1⟩

end ETL
